import Mathlib

/-!
# Verification of the MCP multi-server client orchestrator

A shallow embedding of `src/MCPClient.ts`: configuration model, transport
selection, session registry, tool index and dispatch. JavaScript objects and
`Map`s are modelled as insertion-ordered association lists (`jsGet`, `jsSet`,
`jsDelete` mirror property read, `set`/assignment and `delete`); JavaScript
truthiness of optional strings is "present and non-empty". Remote behaviour
(connection success, tool catalogs, close success) is an oracle `World`
passed to each effectful operation.
-/

namespace MCP

/-! ### JavaScript-style ordered maps (objects and Maps) -/

def jsGet {α : Type} (m : List (String × α)) (k : String) : Option α :=
  match m with
  | [] => none
  | p :: ps => if p.1 = k then some p.2 else jsGet ps k

def jsHas {α : Type} (m : List (String × α)) (k : String) : Bool :=
  (jsGet m k).isSome

/-- `Map.set` / property assignment: update in place if the key exists
(JavaScript keeps the original insertion position), else append. -/
def jsSet {α : Type} (m : List (String × α)) (k : String) (v : α) : List (String × α) :=
  if jsHas m k then m.map (fun p => if p.1 = k then (k, v) else p)
  else m ++ [(k, v)]

/-- `Map.delete` / the `delete` operator: remove the key, keep the rest in
order. -/
def jsDelete {α : Type} : List (String × α) → String → List (String × α)
  | [], _ => []
  | p :: ps, k => if p.1 = k then jsDelete ps k else p :: jsDelete ps k

/-- `array.indexOf(n)` followed by `splice(idx, 1)`: remove the first
occurrence of `n`, if any. -/
def removeFirst : List String → String → List String
  | [], _ => []
  | x :: xs, n => if x = n then xs else x :: removeFirst xs n

/-! ### Data model (`MCPServerConfig`, `MCPConfig`, sessions, tools) -/

/-- One configured MCP server (interface `MCPServerConfig`). All fields are
optional, as in the source. -/
structure MCPServerConfig where
  type : Option String := none
  command : Option String := none
  args : Option (List String) := none
  env : Option (List (String × String)) := none
  url : Option String := none
  ws_url : Option String := none
deriving DecidableEq, Repr

/-- Global configuration (interface `MCPConfig`): an optional map from server
name to server config. -/
structure MCPConfig where
  mcpServers : Option (List (String × MCPServerConfig)) := none
deriving DecidableEq, Repr

/-- JavaScript truthiness of an optional string field: present and non-empty
(the empty string is falsy). -/
def truthyStr : Option String → Bool
  | some s => s ≠ ""
  | none => false

/-- JavaScript truthiness of an optional array field: any array (even empty)
is truthy. -/
def truthyList : Option (List String) → Bool
  | some _ => true
  | none => false

/-- The concrete transport handle produced by `createTransport`. -/
inductive Transport where
  | stdio (command : String) (args : List String) (env : Option (List (String × String)))
  | sse (url : String)
  | streamableHttp (url : String)
  | websocket (url : String)
deriving DecidableEq, Repr

/-- The error values the orchestrator can raise (the `throw new Error(...)`
sites of the source, by message). -/
inductive MCPError where
  | noServersDefined
  | serverNotFoundInConfig (name : String)
  | configurationError
  | connectFailed (name : String)
  | noServerForTool (name : String)
  | noSessionForServer (name : String)
deriving DecidableEq, Repr

/-- A connected session handle (`new MCPClientSDK({name, version}) ` followed
by `connect(transport)`). -/
structure Session where
  serverName : String
  version : String
  transport : Transport
deriving DecidableEq, Repr

/-- A tool descriptor as reported by a server's catalog. The input schema is
kept abstract as a string. -/
structure Tool where
  name : String
  description : Option String
  inputSchema : String
deriving DecidableEq, Repr

/-- Oracle for the external collaborators: whether connecting to a named
server succeeds, which tool catalog a session reports, and whether closing a
session succeeds. -/
structure World where
  connectOk : String → Bool
  toolCatalog : Session → List Tool
  closeOk : Session → Bool

/-- The record a successful `callTool` forwards to the owning session:
server, tool name, arguments and the timeout applied to the call. -/
structure ToolDispatch where
  serverName : String
  toolName : String
  args : List (String × String)
  timeout : Nat
deriving DecidableEq, Repr

/-- The mutable fields of class `MCPClient`. -/
structure MCPState where
  config : MCPConfig
  sessions : List (String × Session)
  activeSessions : List String
  toolServerMap : List (String × String)
  maxToolTimeout : Nat
deriving DecidableEq, Repr

/-! ### Operations of the orchestrator -/

/-- The constructor (object-config form): empty registry, and
`maxToolTimeout` overridden only when the argument is truthy (a number other
than 0). -/
def mkClient (cfg : MCPConfig) (timeoutArg : Option Nat) : MCPState :=
  { config := cfg
    sessions := []
    activeSessions := []
    toolServerMap := []
    maxToolTimeout :=
      match timeoutArg with
      | some t => if t ≠ 0 then t else 10000
      | none => 10000 }

/-- `addServer`: create `mcpServers` if absent, then assign the descriptor. -/
def addServer (s : MCPState) (name : String) (cfg : MCPServerConfig) : MCPState :=
  let servers := s.config.mcpServers.getD []
  { s with config := { mcpServers := some (jsSet servers name cfg) } }

/-- `removeServer`: delete the descriptor if present, and splice the name out
of `activeSessions` (first occurrence). -/
def removeServer (s : MCPState) (name : String) : MCPState :=
  let config' : MCPConfig :=
    match s.config.mcpServers with
    | some servers =>
      if jsHas servers name then { mcpServers := some (jsDelete servers name) }
      else s.config
    | none => s.config
  { s with
      config := config'
      activeSessions := removeFirst s.activeSessions name }

/-- `getServerNames`: `Object.keys(this.config.mcpServers || {})`. -/
def getServerNames (s : MCPState) : List String :=
  (s.config.mcpServers.getD []).map Prod.fst

/-- `createTransport`: the transport-selection precedence of the source. -/
def createTransport (cfg : MCPServerConfig) : Except MCPError Transport :=
  if truthyStr cfg.command && truthyList cfg.args then
    .ok (.stdio (cfg.command.getD "") (cfg.args.getD []) cfg.env)
  else if truthyStr cfg.url && (cfg.type == some "sse") then
    .ok (.sse (cfg.url.getD ""))
  else if truthyStr cfg.url && (cfg.type == some "streamable-http") then
    .ok (.streamableHttp (cfg.url.getD ""))
  else if truthyStr cfg.ws_url then
    .ok (.websocket (cfg.ws_url.getD ""))
  else
    .error .configurationError

/-- `createSession`: config checks, transport selection, connect, then store
the session and mark the name active. Throwing in TypeScript leaves the state
as it was, so the operation returns the (possibly unchanged) state beside the
result. -/
def createSession (w : World) (s : MCPState) (serverName : String) :
    MCPState × Except MCPError Session :=
  match s.config.mcpServers with
  | none => (s, .error .noServersDefined)
  | some servers =>
    if servers.isEmpty then (s, .error .noServersDefined)
    else
      match jsGet servers serverName with
      | none => (s, .error (.serverNotFoundInConfig serverName))
      | some cfg =>
        match createTransport cfg with
        | .error e => (s, .error e)
        | .ok transport =>
          if w.connectOk serverName then
            let client : Session :=
              { serverName := serverName, version := "1.0.0", transport := transport }
            ({ s with
                sessions := jsSet s.sessions serverName client
                activeSessions :=
                  if serverName ∈ s.activeSessions then s.activeSessions
                  else s.activeSessions ++ [serverName] },
             .ok client)
          else (s, .error (.connectFailed serverName))

/-- `getToolServerMap`: scan every entry of the `sessions` registry (in Map
insertion order) and record `tool.name -> serverName`; `Map.set` makes the
later scan win on duplicate tool names. -/
def getToolServerMap (w : World) (sessions : List (String × Session)) :
    List (String × String) :=
  sessions.foldl
    (fun acc entry =>
      (w.toolCatalog entry.2).foldl (fun m tl => jsSet m tl.name entry.1) acc)
    []

/-- The body of the `for` loop in `createAllSessions`: create sessions for
the listed names in order, aborting on the first failure (the state reached
so far is kept). -/
def createSessionsLoop (w : World) : MCPState → List String → MCPState × Except MCPError Unit
  | s, [] => (s, .ok ())
  | s, n :: ns =>
    match createSession w s n with
    | (s', .ok _) => createSessionsLoop w s' ns
    | (s', .error e) => (s', .error e)

/-- `createAllSessions`: empty-config check, sequential per-server creation
in configuration order, then (on full success only) the tool-index rebuild. -/
def createAllSessions (w : World) (s : MCPState) : MCPState × Except MCPError Unit :=
  match s.config.mcpServers with
  | none => (s, .error .noServersDefined)
  | some servers =>
    if servers.isEmpty then (s, .error .noServersDefined)
    else
      match createSessionsLoop w s (servers.map Prod.fst) with
      | (s', .ok _) =>
        ({ s' with toolServerMap := getToolServerMap w s'.sessions }, .ok ())
      | (s', .error e) => (s', .error e)

/-- `getSession`: lookup that throws when absent. -/
def getSession (s : MCPState) (serverName : String) : Except MCPError Session :=
  match jsGet s.sessions serverName with
  | none => .error (.noSessionForServer serverName)
  | some sess => .ok sess

/-- `getAllActiveSessions`: walk `activeSessions` and collect the names whose
session still exists into a fresh Map. -/
def getAllActiveSessions (s : MCPState) : List (String × Session) :=
  s.activeSessions.foldl
    (fun acc n =>
      match jsGet s.sessions n with
      | some sess => jsSet acc n sess
      | none => acc)
    []

/-- `closeSession`: no-op when the name is untracked; otherwise attempt the
close (success or failure both fall through to the `finally` block) and
unconditionally remove the name from `sessions` and `activeSessions`. Any
close-time error is caught, so the operation returns a state, never an
error. -/
def closeSession (w : World) (s : MCPState) (serverName : String) : MCPState :=
  match jsGet s.sessions serverName with
  | none => s
  | some client =>
    let _closeFailed := !(w.closeOk client)
    { s with
        sessions := jsDelete s.sessions serverName
        activeSessions := removeFirst s.activeSessions serverName }

/-- `closeAllSessions`: snapshot the registry's key list, then close each in
turn; errors are collected for logging only and never re-thrown. -/
def closeAllSessions (w : World) (s : MCPState) : MCPState :=
  (s.sessions.map Prod.fst).foldl (fun st n => closeSession w st n) s

/-- `callTool`: tool-index lookup guarded by the source's falsy check
`if (!serverName)` — which fires both when the tool is absent from the index
and when the indexed server name is the falsy empty string — then registry
lookup, then forward the call to the owning session with the configured
timeout. The function neither consults the oracle nor returns a new state: a
failed lookup contacts no server and mutates nothing. -/
def callTool (s : MCPState) (name : String) (args : List (String × String)) :
    Except MCPError ToolDispatch :=
  match jsGet s.toolServerMap name with
  | none => .error (.noServerForTool name)
  | some serverName =>
    if serverName = "" then .error (.noServerForTool name)
    else
      match jsGet s.sessions serverName with
      | none => .error (.noSessionForServer serverName)
      | some _client =>
        .ok { serverName := serverName, toolName := name, args := args,
              timeout := s.maxToolTimeout }

/-! ### Characterisations, reachability and invariants -/

/-- The server that a scan of `entries` leaves as the owner of tool `t`:
the owner recorded by the latest-scanned entry whose catalog reports `t`. -/
def lastOwner (w : World) : List (String × Session) → String → Option String
  | [], _ => none
  | entry :: rest, t =>
    match lastOwner w rest t with
    | some srv => some srv
    | none =>
      if t ∈ (w.toolCatalog entry.2).map Tool.name then some entry.1 else none

/-- Modelled from the spec: the Tool Index rebuild as the spec words it —
"for every server name in `activeSessions`, query that session's tool
catalog, and record `toolName → serverName` for each". Stated only to be
compared with `getToolServerMap`, which the source builds from the
`sessions` registry instead. -/
def getToolServerMapActiveScan (w : World) (s : MCPState) : List (String × String) :=
  s.activeSessions.foldl
    (fun acc n =>
      match jsGet s.sessions n with
      | some sess => (w.toolCatalog sess).foldl (fun m tl => jsSet m tl.name n) acc
      | none => acc)
    []

/-- The orchestrator operations a caller can issue. -/
inductive Op where
  | addServer (name : String) (cfg : MCPServerConfig)
  | removeServer (name : String)
  | createSession (name : String)
  | createAllSessions
  | closeSession (name : String)
  | closeAllSessions

/-- Apply one operation under a given oracle; exceptions leave the state the
operation produced so far, which the step keeps. -/
def applyOp (s : MCPState) : World × Op → MCPState
  | (_, .addServer n c) => addServer s n c
  | (_, .removeServer n) => removeServer s n
  | (w, .createSession n) => (createSession w s n).1
  | (w, .createAllSessions) => (createAllSessions w s).1
  | (w, .closeSession n) => closeSession w s n
  | (w, .closeAllSessions) => closeAllSessions w s

/-- Run a trace of operations, each under its own oracle. -/
def run (s : MCPState) (trace : List (World × Op)) : MCPState :=
  trace.foldl applyOp s

/-- A state reachable from some freshly constructed client by some sequence
of operations. -/
def Reachable (s : MCPState) : Prop :=
  ∃ cfg timeoutArg trace, run (mkClient cfg timeoutArg) trace = s

/-- Registry consistency: the active list has no duplicates and every active
name has a session. -/
def SessInv (s : MCPState) : Prop :=
  s.activeSessions.Nodup ∧ ∀ n ∈ s.activeSessions, (jsGet s.sessions n).isSome = true

/-- `SessInv` plus: every active name is still configured. -/
def RegistryInv (s : MCPState) : Prop :=
  SessInv s ∧ ∀ n ∈ s.activeSessions, n ∈ getServerNames s

/-! ### Concrete fixtures for witnesses and counterexamples -/

def cfgStdioA : MCPServerConfig := { command := some "echo", args := some ["a"] }

def cfgStdioB : MCPServerConfig := { command := some "echo", args := some ["b"] }

def cfgNoTransport : MCPServerConfig := {}

def toolA : Tool := { name := "ta", description := some "tool of a", inputSchema := "obj" }

def toolB : Tool := { name := "tb", description := none, inputSchema := "obj" }

/-- An oracle where every connect and close succeeds, server `a` reports
tool `ta` and every other server reports tool `tb`. -/
def exWorld : World :=
  { connectOk := fun _ => true
    toolCatalog := fun sess => if sess.serverName = "a" then [toolA] else [toolB]
    closeOk := fun _ => true }

def oneServerConfig : MCPConfig := { mcpServers := some [("a", cfgStdioA)] }

def twoServerConfig : MCPConfig :=
  { mcpServers := some [("a", cfgStdioA), ("b", cfgStdioB)] }

/-- Configuration whose second server has no transport fields, so bulk
creation fails midway. -/
def badSecondConfig : MCPConfig :=
  { mcpServers := some [("a", cfgStdioA), ("bad", cfgNoTransport)] }

/-- Reachable state with one live session for `a`. -/
def exActiveState : MCPState :=
  run (mkClient oneServerConfig none) [(exWorld, .createSession "a")]

/-- Reachable state in which a session for `a` survives in the registry
although `a` was removed from the configuration (and hence from
`activeSessions`) before the bulk creation that rebuilt the tool index. -/
def exStaleState : MCPState :=
  run (mkClient twoServerConfig none)
    [(exWorld, .createSession "a"), (exWorld, .removeServer "a"),
     (exWorld, .createAllSessions)]

/-- Descriptor carrying both a stdio shape and a url: precedence must pick
stdio. -/
def cfgBothStdioUrl : MCPServerConfig :=
  { command := some "echo", args := some ["hi"], url := some "http://localhost:8000/sse",
    type := some "sse" }

def cfgSse : MCPServerConfig :=
  { type := some "sse", url := some "http://localhost:8000/sse" }

def cfgHttp : MCPServerConfig :=
  { type := some "streamable-http", url := some "http://localhost:8000/mcp" }

def cfgWs : MCPServerConfig := { ws_url := some "ws://localhost:9000" }

/-- The state left behind by a bulk creation that fails on its second
server. -/
def exFailState : MCPState :=
  (createAllSessions exWorld (mkClient badSecondConfig none)).1

/-- The state after a fully successful bulk creation over two servers. -/
def exAllState : MCPState :=
  (createAllSessions exWorld (mkClient twoServerConfig none)).1

/-- The session object `createSession` builds for server `a` of
`oneServerConfig`. -/
def exSessionA : Session :=
  { serverName := "a", version := "1.0.0", transport := Transport.stdio "echo" ["a"] none }

/-- Configuration whose only server is named by the empty string — a legal
JavaScript object key, but falsy as a value. -/
def emptyNameConfig : MCPConfig := { mcpServers := some [("", cfgStdioB)] }

/-- Reachable state whose tool index maps tool `tb` to the server named by
the empty string, whose session is live in the registry. -/
def exEmptyNameState : MCPState :=
  run (mkClient emptyNameConfig none) [(exWorld, .createAllSessions)]

/-! ### Lemmas on the JavaScript-style maps -/

theorem jsGet_nil {α : Type} (k : String) : jsGet ([] : List (String × α)) k = none := rfl

theorem jsGet_cons {α : Type} (p : String × α) (ps : List (String × α)) (k : String) :
    jsGet (p :: ps) k = if p.1 = k then some p.2 else jsGet ps k := rfl

theorem jsGet_map_replace_ne {α : Type} (m : List (String × α)) (k k' : String) (v : α)
    (h : k' ≠ k) :
    jsGet (m.map (fun p => if p.1 = k then (k, v) else p)) k' = jsGet m k' := by
  induction m with
  | nil => rfl
  | cons p ps ih =>
    by_cases hp : p.1 = k
    · have hne : ¬ (k = k') := fun hkk => h hkk.symm
      have hne2 : ¬ (p.1 = k') := by
        rw [hp]; exact hne
      simp [jsGet_cons, hp, hne, hne2, ih]
    · simp [jsGet_cons, hp, ih]

theorem jsGet_map_replace_self {α : Type} (m : List (String × α)) (k : String) (v : α)
    (h : jsHas m k = true) :
    jsGet (m.map (fun p => if p.1 = k then (k, v) else p)) k = some v := by
  induction m with
  | nil => simp [jsHas, jsGet_nil] at h
  | cons p ps ih =>
    by_cases hp : p.1 = k
    · simp [jsGet_cons, hp]
    · have h' : jsHas ps k = true := by
        simpa [jsHas, jsGet_cons, hp] using h
      simp [jsGet_cons, hp, ih h']

theorem jsGet_append {α : Type} (m m₂ : List (String × α)) (k : String) :
    jsGet (m ++ m₂) k =
      match jsGet m k with
      | some x => some x
      | none => jsGet m₂ k := by
  induction m with
  | nil => simp [jsGet_nil]
  | cons p ps ih =>
    by_cases hp : p.1 = k
    · simp [jsGet_cons, hp]
    · simp [jsGet_cons, hp, ih]

theorem jsGet_jsSet {α : Type} (m : List (String × α)) (k k' : String) (v : α) :
    jsGet (jsSet m k v) k' = if k' = k then some v else jsGet m k' := by
  unfold jsSet
  by_cases hk : jsHas m k = true
  · rw [if_pos hk]
    by_cases h : k' = k
    · subst h
      rw [if_pos rfl, jsGet_map_replace_self m k' v hk]
    · rw [if_neg h, jsGet_map_replace_ne m k k' v h]
  · rw [if_neg hk, jsGet_append]
    have hnone : jsGet m k = none := by
      cases hg : jsGet m k with
      | none => rfl
      | some x => exact absurd (by simp [jsHas, hg]) hk
    by_cases h : k' = k
    · subst h
      simp [hnone, jsGet_cons]
    · have hks : ¬ (k = k') := fun hc => h hc.symm
      cases hg : jsGet m k' with
      | none => simp [jsGet_cons, h, hks, jsGet_nil]
      | some x => simp [h]

theorem jsGet_jsDelete {α : Type} (m : List (String × α)) (k k' : String) :
    jsGet (jsDelete m k) k' = if k' = k then none else jsGet m k' := by
  induction m with
  | nil => simp [jsDelete, jsGet_nil]
  | cons p ps ih =>
    by_cases hp : p.1 = k
    · rw [jsDelete, if_pos hp, ih]
      by_cases h : k' = k
      · rw [if_pos h, if_pos h]
      · have hne : ¬ (p.1 = k') := by
          rw [hp]; exact fun hc => h hc.symm
        rw [if_neg h, if_neg h, jsGet_cons, if_neg hne]
    · rw [jsDelete, if_neg hp, jsGet_cons]
      by_cases hpk : p.1 = k'
      · have h : ¬ (k' = k) := fun hc => hp (hpk.trans hc)
        rw [if_pos hpk, if_neg h, jsGet_cons, if_pos hpk]
      · rw [if_neg hpk, ih]
        by_cases h : k' = k
        · rw [if_pos h, if_pos h]
        · rw [if_neg h, if_neg h, jsGet_cons, if_neg hpk]

theorem jsGet_isSome_iff {α : Type} (m : List (String × α)) (k : String) :
    (jsGet m k).isSome = true ↔ k ∈ m.map Prod.fst := by
  induction m with
  | nil => simp [jsGet_nil]
  | cons p ps ih =>
    rw [jsGet_cons]
    by_cases hp : p.1 = k
    · simp [hp]
    · rw [if_neg hp, List.map_cons, List.mem_cons, ih]
      constructor
      · exact Or.inr
      · rintro (h | h)
        · exact absurd h.symm hp
        · exact h

theorem jsGet_eq_none_iff {α : Type} (m : List (String × α)) (k : String) :
    jsGet m k = none ↔ k ∉ m.map Prod.fst := by
  rw [← jsGet_isSome_iff]
  cases jsGet m k <;> simp

theorem map_fst_replace {α : Type} (m : List (String × α)) (k : String) (v : α) :
    (m.map (fun p => if p.1 = k then (k, v) else p)).map Prod.fst = m.map Prod.fst := by
  rw [List.map_map]
  apply List.map_congr_left
  intro p _
  by_cases h : p.1 = k
  · simp [h]
  · simp [h]

theorem jsSet_keys {α : Type} (m : List (String × α)) (k : String) (v : α) :
    (jsSet m k v).map Prod.fst =
      if jsHas m k then m.map Prod.fst else m.map Prod.fst ++ [k] := by
  unfold jsSet
  by_cases hk : jsHas m k = true
  · rw [if_pos hk, if_pos hk, map_fst_replace]
  · rw [if_neg hk, if_neg hk]
    simp

theorem jsSet_keys_nodup {α : Type} (m : List (String × α)) (k : String) (v : α)
    (h : (m.map Prod.fst).Nodup) : ((jsSet m k v).map Prod.fst).Nodup := by
  rw [jsSet_keys]
  by_cases hk : jsHas m k = true
  · rw [if_pos hk]; exact h
  · rw [if_neg hk]
    have : jsGet m k = none := by
      cases hg : jsGet m k with
      | none => rfl
      | some x => exact absurd (by simp [jsHas, hg]) hk
    have hnm : k ∉ m.map Prod.fst := (jsGet_eq_none_iff m k).mp this
    simp [List.nodup_append, h, hnm]

/-! ### Lemmas on `removeFirst` -/

theorem removeFirst_subset (l : List String) (k n : String) :
    n ∈ removeFirst l k → n ∈ l := by
  induction l with
  | nil => simp [removeFirst]
  | cons x xs ih =>
    by_cases hx : x = k
    · intro h
      rw [removeFirst, if_pos hx] at h
      exact List.mem_cons_of_mem x h
    · intro h
      rw [removeFirst, if_neg hx] at h
      rcases List.mem_cons.mp h with h | h
      · exact h ▸ List.mem_cons_self x xs
      · exact List.mem_cons_of_mem x (ih h)

theorem removeFirst_nodup (l : List String) (k : String) (h : l.Nodup) :
    (removeFirst l k).Nodup := by
  induction l with
  | nil => simp [removeFirst]
  | cons x xs ih =>
    rcases List.nodup_cons.mp h with ⟨hx, hxs⟩
    by_cases hxk : x = k
    · rw [removeFirst, if_pos hxk]; exact hxs
    · rw [removeFirst, if_neg hxk]
      exact List.nodup_cons.mpr ⟨fun hc => hx (removeFirst_subset xs k x hc), ih hxs⟩

theorem mem_removeFirst_of_ne (l : List String) (k n : String)
    (hn : n ∈ l) (hne : n ≠ k) : n ∈ removeFirst l k := by
  induction l with
  | nil => simp at hn
  | cons x xs ih =>
    by_cases hx : x = k
    · rw [removeFirst, if_pos hx]
      rcases List.mem_cons.mp hn with h | h
      · exact absurd (h.trans hx) hne
      · exact h
    · rw [removeFirst, if_neg hx]
      rcases List.mem_cons.mp hn with h | h
      · exact h ▸ List.mem_cons_self x (removeFirst xs k)
      · exact List.mem_cons_of_mem x (ih h)

theorem ne_of_mem_removeFirst (l : List String) (k n : String) (h : l.Nodup)
    (hm : n ∈ removeFirst l k) : n ≠ k := by
  induction l with
  | nil => simp [removeFirst] at hm
  | cons x xs ih =>
    rcases List.nodup_cons.mp h with ⟨hx, hxs⟩
    by_cases hxk : x = k
    · rw [removeFirst, if_pos hxk] at hm
      intro hnk
      subst hnk
      apply hx
      rw [hxk]
      exact hm
    · rw [removeFirst, if_neg hxk] at hm
      rcases List.mem_cons.mp hm with hh | hh
      · exact hh ▸ hxk
      · exact ih hxs hh

theorem mem_removeFirst_iff (l : List String) (k n : String) (h : l.Nodup) :
    n ∈ removeFirst l k ↔ n ∈ l ∧ n ≠ k := by
  constructor
  · intro hm
    exact ⟨removeFirst_subset l k n hm, ne_of_mem_removeFirst l k n h hm⟩
  · rintro ⟨hn, hne⟩
    exact mem_removeFirst_of_ne l k n hn hne

theorem not_mem_removeFirst_self (l : List String) (k : String) (h : l.Nodup) :
    k ∉ removeFirst l k := by
  intro hc
  exact ((mem_removeFirst_iff l k k h).mp hc).2 rfl

theorem removeFirst_of_not_mem (l : List String) (k : String) (h : k ∉ l) :
    removeFirst l k = l := by
  induction l with
  | nil => rfl
  | cons x xs ih =>
    have hx : ¬ (x = k) := fun hc => h (hc ▸ List.mem_cons_self x xs)
    rw [removeFirst, if_neg hx, ih (fun hc => h (List.mem_cons_of_mem x hc))]

/-! ### The tool index: what a registry scan records -/

theorem toolFold_jsGet (srv : String) (tools : List Tool) (t : String) :
    ∀ acc, jsGet (tools.foldl (fun m tl => jsSet m tl.name srv) acc) t =
      if t ∈ tools.map Tool.name then some srv else jsGet acc t := by
  induction tools with
  | nil =>
    intro acc
    simp
  | cons tl tls ih =>
    intro acc
    rw [List.foldl_cons, ih]
    by_cases h : t ∈ tls.map Tool.name
    · simp [h]
    · by_cases h2 : t = tl.name
      · simp [h, h2, jsGet_jsSet]
      · simp [h, h2, jsGet_jsSet]

theorem toolServerFold_jsGet (w : World) (ss : List (String × Session)) (t : String) :
    ∀ acc,
      jsGet (ss.foldl
        (fun acc entry =>
          (w.toolCatalog entry.2).foldl (fun m tl => jsSet m tl.name entry.1) acc) acc) t =
      match lastOwner w ss t with
      | some srv => some srv
      | none => jsGet acc t := by
  induction ss with
  | nil =>
    intro acc
    simp [lastOwner]
  | cons entry rest ih =>
    intro acc
    rw [List.foldl_cons, ih]
    cases h : lastOwner w rest t with
    | some srv => simp [lastOwner, h]
    | none =>
      simp only [lastOwner, h]
      rw [toolFold_jsGet]
      by_cases hm : t ∈ (w.toolCatalog entry.2).map Tool.name
      · simp [hm]
      · simp [hm]

theorem getToolServerMap_jsGet (w : World) (ss : List (String × Session)) (t : String) :
    jsGet (getToolServerMap w ss) t = lastOwner w ss t := by
  have h := toolServerFold_jsGet w ss t []
  rw [getToolServerMap]
  rw [h]
  cases lastOwner w ss t with
  | none => simp [jsGet_nil]
  | some srv => rfl

theorem toolFold_keys_nodup (srv : String) (tools : List Tool) :
    ∀ acc : List (String × String), (acc.map Prod.fst).Nodup →
      ((tools.foldl (fun m tl => jsSet m tl.name srv) acc).map Prod.fst).Nodup := by
  induction tools with
  | nil =>
    intro acc h
    simpa using h
  | cons tl tls ih =>
    intro acc h
    rw [List.foldl_cons]
    exact ih (jsSet acc tl.name srv) (jsSet_keys_nodup acc tl.name srv h)

theorem getToolServerMap_keys_nodup (w : World) (ss : List (String × Session)) :
    ((getToolServerMap w ss).map Prod.fst).Nodup := by
  rw [getToolServerMap]
  suffices h : ∀ acc : List (String × String), (acc.map Prod.fst).Nodup →
      ((ss.foldl
        (fun acc entry =>
          (w.toolCatalog entry.2).foldl (fun m tl => jsSet m tl.name entry.1) acc) acc).map
        Prod.fst).Nodup by
    exact h [] (by simp)
  induction ss with
  | nil =>
    intro acc h
    simpa using h
  | cons entry rest ih =>
    intro acc h
    rw [List.foldl_cons]
    exact ih _ (toolFold_keys_nodup entry.1 (w.toolCatalog entry.2) acc h)

/-- Every owner the last-scan characterisation names is the key of a scanned
registry entry whose session reports the tool. -/
theorem lastOwner_mem (w : World) (ss : List (String × Session)) (t : String)
    (srv : String) (h : lastOwner w ss t = some srv) :
    ∃ entry ∈ ss, entry.1 = srv ∧ t ∈ (w.toolCatalog entry.2).map Tool.name := by
  induction ss with
  | nil => simp [lastOwner] at h
  | cons entry rest ih =>
    rw [lastOwner] at h
    cases hrest : lastOwner w rest t with
    | some srv' =>
      rw [hrest] at h
      obtain ⟨e, he, h1, h2⟩ := ih (hrest.trans (by injection h with h; rw [h]))
      exact ⟨e, List.mem_cons_of_mem entry he, h1, h2⟩
    | none =>
      rw [hrest] at h
      by_cases hm : t ∈ (w.toolCatalog entry.2).map Tool.name
      · rw [if_pos hm] at h
        injection h with h
        exact ⟨entry, List.mem_cons_self entry rest, h, hm⟩
      · rw [if_neg hm] at h
        exact absurd h (by simp)

theorem jsDelete_of_not_mem {α : Type} (m : List (String × α)) (k : String)
    (h : k ∉ m.map Prod.fst) : jsDelete m k = m := by
  induction m with
  | nil => rfl
  | cons p ps ih =>
    have hp : ¬ (p.1 = k) := fun hc => h (by simp [hc.symm])
    rw [jsDelete, if_neg hp, ih (fun hc => h (by simp [hc]))]

/-- If some scanned entry reports the tool, the last-scan characterisation
names an owner. -/
theorem lastOwner_isSome (w : World) (ss : List (String × Session)) (t : String)
    (entry : String × Session) (he : entry ∈ ss)
    (hm : t ∈ (w.toolCatalog entry.2).map Tool.name) :
    (lastOwner w ss t).isSome = true := by
  induction ss with
  | nil => simp at he
  | cons q rest ih =>
    rw [lastOwner]
    cases hrest : lastOwner w rest t with
    | some srv => simp
    | none =>
      rcases List.mem_cons.mp he with hq | hq
      · subst hq
        simp [hm]
      · have := ih hq
        rw [hrest] at this
        simp at this

/-! ### Characterising `createSession`, `closeSession` and the loops -/

theorem createSession_spec (w : World) (s : MCPState) (n : String) :
    (∃ e, createSession w s n = (s, Except.error e)) ∨
    (∃ c, createSession w s n =
        ({ s with
            sessions := jsSet s.sessions n c
            activeSessions :=
              if n ∈ s.activeSessions then s.activeSessions
              else s.activeSessions ++ [n] }, Except.ok c) ∧
      n ∈ getServerNames s) := by
  unfold createSession
  cases hs : s.config.mcpServers with
  | none => exact Or.inl ⟨_, rfl⟩
  | some servers =>
    dsimp only
    by_cases he : servers.isEmpty = true
    · rw [if_pos he]
      exact Or.inl ⟨_, rfl⟩
    · rw [if_neg he]
      cases hg : jsGet servers n with
      | none => exact Or.inl ⟨_, rfl⟩
      | some cfg =>
        dsimp only
        cases ht : createTransport cfg with
        | error e => exact Or.inl ⟨_, rfl⟩
        | ok transport =>
          dsimp only
          by_cases hc : w.connectOk n = true
          · rw [if_pos hc]
            refine Or.inr ⟨_, rfl, ?_⟩
            rw [getServerNames, hs]
            exact (jsGet_isSome_iff servers n).mp (by rw [hg]; rfl)
          · rw [if_neg hc]
            exact Or.inl ⟨_, rfl⟩

theorem createSession_error_state (w : World) (s s' : MCPState) (n : String) (e : MCPError)
    (h : createSession w s n = (s', Except.error e)) : s' = s := by
  rcases createSession_spec w s n with ⟨e', he⟩ | ⟨c, hc, _⟩
  · rw [h] at he
    exact congrArg Prod.fst he
  · rw [h] at hc
    exact absurd (congrArg Prod.snd hc) (by simp)

theorem createSession_ok_state (w : World) (s s' : MCPState) (n : String) (c : Session)
    (h : createSession w s n = (s', Except.ok c)) :
    s' = { s with
            sessions := jsSet s.sessions n c
            activeSessions :=
              if n ∈ s.activeSessions then s.activeSessions
              else s.activeSessions ++ [n] } ∧
    n ∈ getServerNames s := by
  rcases createSession_spec w s n with ⟨e', he⟩ | ⟨c', hc, hmem⟩
  · rw [h] at he
    exact absurd (congrArg Prod.snd he) (by simp)
  · rw [h] at hc
    have h2 := congrArg Prod.snd hc
    simp only at h2
    have hcc : c = c' := by
      injection h2
    subst hcc
    have h1 := congrArg Prod.fst hc
    simp only at h1
    exact ⟨h1, hmem⟩

theorem createSessionsLoop_ok (w : World) :
    ∀ (ks : List String) (s s' : MCPState),
      createSessionsLoop w s ks = (s', Except.ok ()) →
      s'.config = s.config ∧
      s'.maxToolTimeout = s.maxToolTimeout ∧
      (∀ m, (jsGet s.sessions m).isSome = true → (jsGet s'.sessions m).isSome = true) ∧
      (∀ m ∈ s.activeSessions, m ∈ s'.activeSessions) ∧
      (∀ n ∈ ks, (jsGet s'.sessions n).isSome = true ∧ n ∈ s'.activeSessions) ∧
      (∀ m ∈ s'.activeSessions, m ∈ s.activeSessions ∨ m ∈ ks) ∧
      (∀ m, (jsGet s'.sessions m).isSome = true →
        (jsGet s.sessions m).isSome = true ∨ m ∈ ks) := by
  intro ks
  induction ks with
  | nil =>
    intro s s' h
    rw [createSessionsLoop] at h
    have hss : s' = s := (congrArg Prod.fst h).symm
    subst hss
    refine ⟨rfl, rfl, fun m hm => hm, fun m hm => hm, ?_, fun m hm => Or.inl hm,
      fun m hm => Or.inl hm⟩
    intro n hn
    simp at hn
  | cons k ks ih =>
    intro s s' h
    rw [createSessionsLoop] at h
    cases hcs : createSession w s k with
    | mk s1 r =>
      rw [hcs] at h
      cases r with
      | error e =>
        dsimp only at h
        exact absurd (congrArg Prod.snd h) (by simp)
      | ok c =>
        dsimp only at h
        obtain ⟨hst, hcfg⟩ := createSession_ok_state w s s1 k c hcs
        obtain ⟨c1, c2, c3, c4, c5, c6, c7⟩ := ih s1 s' h
        have h1cfg : s1.config = s.config := by rw [hst]
        have h1max : s1.maxToolTimeout = s.maxToolTimeout := by rw [hst]
        have h1sess : s1.sessions = jsSet s.sessions k c := by rw [hst]
        have h1act : s1.activeSessions =
            if k ∈ s.activeSessions then s.activeSessions
            else s.activeSessions ++ [k] := by rw [hst]
        have hkeep : ∀ m, (jsGet s.sessions m).isSome = true →
            (jsGet s1.sessions m).isSome = true := by
          intro m hm
          rw [h1sess, jsGet_jsSet]
          by_cases hmk : m = k
          · rw [if_pos hmk]; rfl
          · rw [if_neg hmk]; exact hm
        have hactkeep : ∀ m ∈ s.activeSessions, m ∈ s1.activeSessions := by
          intro m hm
          rw [h1act]
          by_cases hk : k ∈ s.activeSessions
          · rw [if_pos hk]; exact hm
          · rw [if_neg hk]; exact List.mem_append_left _ hm
        have hk1 : (jsGet s1.sessions k).isSome = true := by
          rw [h1sess, jsGet_jsSet, if_pos rfl]; rfl
        have hk2 : k ∈ s1.activeSessions := by
          rw [h1act]
          by_cases hk : k ∈ s.activeSessions
          · rw [if_pos hk]; exact hk
          · rw [if_neg hk]; exact List.mem_append_right _ (List.mem_singleton.mpr rfl)
        refine ⟨c1.trans h1cfg, c2.trans h1max, fun m hm => c3 m (hkeep m hm),
          fun m hm => c4 m (hactkeep m hm), ?_, ?_, ?_⟩
        · intro n hn
          rcases List.mem_cons.mp hn with hn | hn
          · subst hn
            exact ⟨c3 n hk1, c4 n hk2⟩
          · exact c5 n hn
        · intro m hm
          rcases c6 m hm with hm1 | hm1
          · rw [h1act] at hm1
            by_cases hk : k ∈ s.activeSessions
            · rw [if_pos hk] at hm1
              exact Or.inl hm1
            · rw [if_neg hk] at hm1
              rcases List.mem_append.mp hm1 with hm2 | hm2
              · exact Or.inl hm2
              · exact Or.inr (List.mem_cons.mpr (Or.inl (List.mem_singleton.mp hm2)))
          · exact Or.inr (List.mem_cons_of_mem k hm1)
        · intro m hm
          rcases c7 m hm with hm1 | hm1
          · rw [h1sess, jsGet_jsSet] at hm1
            by_cases hmk : m = k
            · exact Or.inr (hmk ▸ List.mem_cons_self k ks)
            · rw [if_neg hmk] at hm1
              exact Or.inl hm1
          · exact Or.inr (List.mem_cons_of_mem k hm1)

theorem createSessionsLoop_error (w : World) :
    ∀ (ks : List String) (s s' : MCPState) (e : MCPError),
      createSessionsLoop w s ks = (s', Except.error e) →
      ∃ pre k post, ks = pre ++ k :: post ∧
        createSessionsLoop w s pre = (s', Except.ok ()) ∧
        createSession w s' k = (s', Except.error e) ∧
        (∀ n ∈ pre, (jsGet s'.sessions n).isSome = true ∧ n ∈ s'.activeSessions) ∧
        (∀ m, (jsGet s'.sessions m).isSome = true →
          (jsGet s.sessions m).isSome = true ∨ m ∈ pre) := by
  intro ks
  induction ks with
  | nil =>
    intro s s' e h
    rw [createSessionsLoop] at h
    exact absurd (congrArg Prod.snd h) (by simp)
  | cons k ks ih =>
    intro s s' e h
    rw [createSessionsLoop] at h
    cases hcs : createSession w s k with
    | mk s1 r =>
      rw [hcs] at h
      cases r with
      | error e1 =>
        dsimp only at h
        have h1 : s1 = s' := congrArg Prod.fst h
        have h3 : e1 = e := by
          have := congrArg Prod.snd h
          simpa using this
        have h4 : s1 = s := createSession_error_state w s s1 k e1 hcs
        rw [h4] at h1 hcs
        subst h1
        subst h3
        exact ⟨[], k, ks, rfl, rfl, hcs, by simp, fun m hm => Or.inl hm⟩
      | ok c =>
        dsimp only at h
        obtain ⟨pre, k', post, hks, hloop, hfail, hpre, hframe⟩ := ih s1 s' e h
        obtain ⟨_, _, hkeep, hactkeep, _, _, _⟩ := createSessionsLoop_ok w pre s1 s' hloop
        obtain ⟨hst, _⟩ := createSession_ok_state w s s1 k c hcs
        have hk1 : (jsGet s1.sessions k).isSome = true := by
          rw [hst, jsGet_jsSet, if_pos rfl]; rfl
        have hk2 : k ∈ s1.activeSessions := by
          rw [hst]
          by_cases hk : k ∈ s.activeSessions
          · rw [if_pos hk]; exact hk
          · rw [if_neg hk]; exact List.mem_append_right _ (List.mem_singleton.mpr rfl)
        refine ⟨k :: pre, k', post, by rw [hks, List.cons_append], ?_, hfail, ?_, ?_⟩
        · rw [createSessionsLoop, hcs]
          exact hloop
        · intro n hn
          rcases List.mem_cons.mp hn with hn | hn
          · subst hn
            exact ⟨hkeep n hk1, hactkeep n hk2⟩
          · exact hpre n hn
        · intro m hm
          rcases hframe m hm with hm1 | hm1
          · rw [hst, jsGet_jsSet] at hm1
            by_cases hmk : m = k
            · exact Or.inr (hmk ▸ List.mem_cons_self k pre)
            · rw [if_neg hmk] at hm1
              exact Or.inl hm1
          · exact Or.inr (List.mem_cons_of_mem k hm1)

/-! ### `closeSession` and `closeAllSessions` -/

theorem closeSession_cases (w : World) (s : MCPState) (n : String) :
    (jsGet s.sessions n = none ∧ closeSession w s n = s) ∨
    ((jsGet s.sessions n).isSome = true ∧
      closeSession w s n =
        { s with
            sessions := jsDelete s.sessions n
            activeSessions := removeFirst s.activeSessions n }) := by
  unfold closeSession
  cases hg : jsGet s.sessions n with
  | none => exact Or.inl ⟨rfl, rfl⟩
  | some c => exact Or.inr ⟨rfl, rfl⟩

theorem closeSession_sessions (w : World) (s : MCPState) (n : String) :
    (closeSession w s n).sessions = jsDelete s.sessions n := by
  rcases closeSession_cases w s n with ⟨hg, he⟩ | ⟨hg, he⟩
  · rw [he, jsDelete_of_not_mem s.sessions n ((jsGet_eq_none_iff s.sessions n).mp hg)]
  · rw [he]

theorem closeSession_world_indep (w w' : World) (s : MCPState) (n : String) :
    closeSession w s n = closeSession w' s n := by
  unfold closeSession
  cases jsGet s.sessions n <;> rfl

theorem foldl_closeSession_sessions (w : World) :
    ∀ (ks : List String) (st : MCPState),
      (ks.foldl (fun st n => closeSession w st n) st).sessions =
        ks.foldl (fun acc n => jsDelete acc n) st.sessions := by
  intro ks
  induction ks with
  | nil => intro st; rfl
  | cons k ks ih =>
    intro st
    rw [List.foldl_cons, List.foldl_cons, ih, closeSession_sessions]

theorem foldl_jsDelete_none {α : Type} :
    ∀ (ks : List String) (m : List (String × α)) (k : String),
      jsGet m k = none → jsGet (ks.foldl (fun acc n => jsDelete acc n) m) k = none := by
  intro ks
  induction ks with
  | nil => intro m k h; exact h
  | cons q qs ih =>
    intro m k h
    rw [List.foldl_cons]
    apply ih
    rw [jsGet_jsDelete]
    by_cases hk : k = q
    · rw [if_pos hk]
    · rw [if_neg hk]; exact h

theorem foldl_jsDelete_mem_none {α : Type} :
    ∀ (ks : List String) (m : List (String × α)) (k : String),
      k ∈ ks → jsGet (ks.foldl (fun acc n => jsDelete acc n) m) k = none := by
  intro ks
  induction ks with
  | nil => intro m k h; simp at h
  | cons q qs ih =>
    intro m k h
    rw [List.foldl_cons]
    by_cases hq : k ∈ qs
    · exact ih _ k hq
    · have hkq : k = q := by
        rcases List.mem_cons.mp h with h1 | h1
        · exact h1
        · exact absurd h1 hq
      apply foldl_jsDelete_none
      rw [jsGet_jsDelete, if_pos hkq]

theorem eq_nil_of_all_jsGet_none {α : Type} (m : List (String × α))
    (h : ∀ k ∈ m.map Prod.fst, jsGet m k = none) : m = [] := by
  cases m with
  | nil => rfl
  | cons p ps =>
    exfalso
    have hp := h p.1 (by simp)
    rw [jsGet_cons, if_pos rfl] at hp
    exact Option.noConfusion hp

theorem closeAllSessions_sessions (w : World) (s : MCPState) :
    (closeAllSessions w s).sessions = [] := by
  rw [closeAllSessions, foldl_closeSession_sessions]
  apply eq_nil_of_all_jsGet_none
  intro k hk
  by_cases hmem : k ∈ s.sessions.map Prod.fst
  · exact foldl_jsDelete_mem_none (s.sessions.map Prod.fst) s.sessions k hmem
  · exact foldl_jsDelete_none (s.sessions.map Prod.fst) s.sessions k
      ((jsGet_eq_none_iff _ _).mpr hmem)

/-! ### Invariant preservation -/

theorem sessInv_closeSession (w : World) (s : MCPState) (n : String) (h : SessInv s) :
    SessInv (closeSession w s n) := by
  obtain ⟨hnd, hact⟩ := h
  rcases closeSession_cases w s n with ⟨hg, he⟩ | ⟨hg, he⟩
  · rw [he]
    exact ⟨hnd, hact⟩
  · rw [he]
    refine ⟨removeFirst_nodup _ _ hnd, ?_⟩
    intro m hm
    obtain ⟨hm1, hm2⟩ := (mem_removeFirst_iff _ _ _ hnd).mp hm
    show (jsGet (jsDelete s.sessions n) m).isSome = true
    rw [jsGet_jsDelete, if_neg hm2]
    exact hact m hm1

theorem sessInv_foldl_closeSession (w : World) :
    ∀ (ks : List String) (st : MCPState), SessInv st →
      SessInv (ks.foldl (fun st n => closeSession w st n) st) := by
  intro ks
  induction ks with
  | nil => intro st h; exact h
  | cons k ks ih =>
    intro st h
    rw [List.foldl_cons]
    exact ih _ (sessInv_closeSession w st k h)

theorem closeAllSessions_activeSessions (w : World) (s : MCPState) (h : SessInv s) :
    (closeAllSessions w s).activeSessions = [] := by
  have hinv : SessInv (closeAllSessions w s) :=
    sessInv_foldl_closeSession w (s.sessions.map Prod.fst) s h
  have hsess := closeAllSessions_sessions w s
  rw [List.eq_nil_iff_forall_not_mem]
  intro n hn
  have := hinv.2 n hn
  rw [hsess] at this
  simp [jsGet_nil] at this

theorem removeServer_sessions (s : MCPState) (n : String) :
    (removeServer s n).sessions = s.sessions := rfl

theorem removeServer_activeSessions (s : MCPState) (n : String) :
    (removeServer s n).activeSessions = removeFirst s.activeSessions n := rfl

theorem removeServer_toolServerMap (s : MCPState) (n : String) :
    (removeServer s n).toolServerMap = s.toolServerMap := rfl

theorem removeServer_config (s : MCPState) (n : String) :
    (removeServer s n).config =
      match s.config.mcpServers with
      | some servers =>
        if jsHas servers n then
          ({ mcpServers := some (jsDelete servers n) } : MCPConfig)
        else s.config
      | none => s.config := rfl

theorem mem_keys_jsDelete {α : Type} (m : List (String × α)) (k key : String) :
    key ∈ (jsDelete m k).map Prod.fst ↔ key ∈ m.map Prod.fst ∧ key ≠ k := by
  rw [← jsGet_isSome_iff, ← jsGet_isSome_iff, jsGet_jsDelete]
  by_cases h : key = k
  · simp [h]
  · simp [h]

theorem getServerNames_removeServer (s : MCPState) (n m : String) :
    m ∈ getServerNames (removeServer s n) ↔ m ∈ getServerNames s ∧ m ≠ n := by
  obtain ⟨⟨cfgOpt⟩, sess, act, tmap, mt⟩ := s
  cases cfgOpt with
  | none => simp [getServerNames, removeServer]
  | some servers =>
    rw [getServerNames, removeServer_config, getServerNames]
    dsimp only
    by_cases hk : jsHas servers n = true
    · rw [if_pos hk]
      dsimp only [Option.getD_some]
      exact mem_keys_jsDelete servers n m
    · rw [if_neg hk]
      dsimp only [Option.getD_some]
      have hnm : n ∉ servers.map Prod.fst := by
        rw [← jsGet_isSome_iff]
        intro hc
        exact hk hc
      constructor
      · intro hm
        refine ⟨hm, ?_⟩
        intro hmn
        exact hnm (hmn ▸ hm)
      · exact And.left

theorem getServerNames_addServer (s : MCPState) (n : String) (cfg : MCPServerConfig)
    (m : String) (h : m ∈ getServerNames s) : m ∈ getServerNames (addServer s n cfg) := by
  rw [getServerNames, addServer]
  dsimp only
  rw [Option.getD_some, jsSet_keys]
  by_cases hk : jsHas (s.config.mcpServers.getD []) n = true
  · rw [if_pos hk]
    exact h
  · rw [if_neg hk]
    exact List.mem_append_left _ h

theorem addServer_sessions (s : MCPState) (n : String) (cfg : MCPServerConfig) :
    (addServer s n cfg).sessions = s.sessions := rfl

theorem addServer_activeSessions (s : MCPState) (n : String) (cfg : MCPServerConfig) :
    (addServer s n cfg).activeSessions = s.activeSessions := rfl

theorem registryInv_addServer (s : MCPState) (n : String) (cfg : MCPServerConfig)
    (h : RegistryInv s) : RegistryInv (addServer s n cfg) := by
  obtain ⟨⟨hnd, hsess⟩, hconf⟩ := h
  refine ⟨⟨hnd, hsess⟩, ?_⟩
  intro m hm
  exact getServerNames_addServer s n cfg m (hconf m hm)

theorem registryInv_removeServer (s : MCPState) (n : String) (h : RegistryInv s) :
    RegistryInv (removeServer s n) := by
  obtain ⟨⟨hnd, hsess⟩, hconf⟩ := h
  refine ⟨⟨?_, ?_⟩, ?_⟩
  · rw [removeServer_activeSessions]
    exact removeFirst_nodup _ _ hnd
  · intro m hm
    rw [removeServer_activeSessions] at hm
    rw [removeServer_sessions]
    exact hsess m (removeFirst_subset _ _ _ hm)
  · intro m hm
    rw [removeServer_activeSessions] at hm
    obtain ⟨hm1, hm2⟩ := (mem_removeFirst_iff _ _ _ hnd).mp hm
    exact (getServerNames_removeServer s n m).mpr ⟨hconf m hm1, hm2⟩

theorem registryInv_createSession (w : World) (s : MCPState) (n : String)
    (h : RegistryInv s) : RegistryInv ((createSession w s n).1) := by
  obtain ⟨⟨hnd, hsess⟩, hconf⟩ := h
  rcases createSession_spec w s n with ⟨e, he⟩ | ⟨c, hc, hmem⟩
  · rw [he]
    exact ⟨⟨hnd, hsess⟩, hconf⟩
  · rw [hc]
    by_cases hk : n ∈ s.activeSessions
    · refine ⟨⟨?_, ?_⟩, ?_⟩
      · show (if n ∈ s.activeSessions then s.activeSessions else s.activeSessions ++ [n]).Nodup
        rw [if_pos hk]
        exact hnd
      · intro m hm
        show (jsGet (jsSet s.sessions n c) m).isSome = true
        rw [if_pos hk] at hm
        rw [jsGet_jsSet]
        by_cases hmn : m = n
        · rw [if_pos hmn]; rfl
        · rw [if_neg hmn]; exact hsess m hm
      · intro m hm
        rw [if_pos hk] at hm
        exact hconf m hm
    · refine ⟨⟨?_, ?_⟩, ?_⟩
      · show (if n ∈ s.activeSessions then s.activeSessions else s.activeSessions ++ [n]).Nodup
        rw [if_neg hk]
        rw [List.nodup_append]
        refine ⟨hnd, List.nodup_singleton n, ?_⟩
        intro m hm hm2
        rw [List.mem_singleton] at hm2
        subst hm2
        exact hk hm
      · intro m hm
        show (jsGet (jsSet s.sessions n c) m).isSome = true
        rw [if_neg hk] at hm
        rw [jsGet_jsSet]
        by_cases hmn : m = n
        · rw [if_pos hmn]; rfl
        · rw [if_neg hmn]
          rcases List.mem_append.mp hm with hm1 | hm1
          · exact hsess m hm1
          · exact absurd (List.mem_singleton.mp hm1) hmn
      · intro m hm
        rw [if_neg hk] at hm
        rcases List.mem_append.mp hm with hm1 | hm1
        · exact hconf m hm1
        · rw [List.mem_singleton.mp hm1]
          exact hmem

theorem registryInv_loop (w : World) :
    ∀ (ks : List String) (s : MCPState), RegistryInv s →
      RegistryInv ((createSessionsLoop w s ks).1) := by
  intro ks
  induction ks with
  | nil => intro s h; exact h
  | cons k ks ih =>
    intro s h
    rw [createSessionsLoop]
    cases hcs : createSession w s k with
    | mk s1 r =>
      have h1 : RegistryInv s1 := by
        have := registryInv_createSession w s k h
        rw [hcs] at this
        exact this
      cases r with
      | error e => exact h1
      | ok c => exact ih s1 h1

theorem registryInv_toolServerMapSet (s : MCPState) (x : List (String × String))
    (h : RegistryInv s) : RegistryInv { s with toolServerMap := x } := h

theorem registryInv_createAllSessions (w : World) (s : MCPState) (h : RegistryInv s) :
    RegistryInv ((createAllSessions w s).1) := by
  rw [createAllSessions]
  cases hs : s.config.mcpServers with
  | none => exact h
  | some servers =>
    dsimp only
    by_cases he : servers.isEmpty = true
    · rw [if_pos he]
      exact h
    · rw [if_neg he]
      cases hloop : createSessionsLoop w s (servers.map Prod.fst) with
      | mk s1 r =>
        have h1 : RegistryInv s1 := by
          have := registryInv_loop w (servers.map Prod.fst) s h
          rw [hloop] at this
          exact this
        cases r with
        | error e => exact h1
        | ok u => exact registryInv_toolServerMapSet s1 _ h1

theorem registryInv_closeSession (w : World) (s : MCPState) (n : String)
    (h : RegistryInv s) : RegistryInv (closeSession w s n) := by
  obtain ⟨hsi, hconf⟩ := h
  refine ⟨sessInv_closeSession w s n hsi, ?_⟩
  rcases closeSession_cases w s n with ⟨hg, he⟩ | ⟨hg, he⟩
  · rw [he]
    exact hconf
  · rw [he]
    intro m hm
    have hm1 := removeFirst_subset _ _ _ hm
    exact hconf m hm1

theorem registryInv_closeAllSessions (w : World) (s : MCPState) (h : RegistryInv s) :
    RegistryInv (closeAllSessions w s) := by
  rw [closeAllSessions]
  generalize s.sessions.map Prod.fst = ks
  induction ks generalizing s with
  | nil => exact h
  | cons k ks ih =>
    rw [List.foldl_cons]
    exact ih (closeSession w s k) (registryInv_closeSession w s k h)

theorem registryInv_mkClient (cfg : MCPConfig) (t : Option Nat) :
    RegistryInv (mkClient cfg t) := by
  refine ⟨⟨List.nodup_nil, ?_⟩, ?_⟩
  · intro n hn
    simp [mkClient] at hn
  · intro n hn
    simp [mkClient] at hn

theorem registryInv_applyOp (s : MCPState) (p : World × Op) (h : RegistryInv s) :
    RegistryInv (applyOp s p) := by
  obtain ⟨w, op⟩ := p
  cases op with
  | addServer n cfg => exact registryInv_addServer s n cfg h
  | removeServer n => exact registryInv_removeServer s n h
  | createSession n => exact registryInv_createSession w s n h
  | createAllSessions => exact registryInv_createAllSessions w s h
  | closeSession n => exact registryInv_closeSession w s n h
  | closeAllSessions => exact registryInv_closeAllSessions w s h

theorem registryInv_run :
    ∀ (trace : List (World × Op)) (s : MCPState), RegistryInv s →
      RegistryInv (run s trace) := by
  intro trace
  induction trace with
  | nil => intro s h; exact h
  | cons p ps ih =>
    intro s h
    rw [run, List.foldl_cons]
    exact ih (applyOp s p) (registryInv_applyOp s p h)

theorem registryInv_reachable (s : MCPState) (h : Reachable s) : RegistryInv s := by
  obtain ⟨cfg, t, trace, hrun⟩ := h
  rw [← hrun]
  exact registryInv_run trace (mkClient cfg t) (registryInv_mkClient cfg t)

/-! ### Characterising `getAllActiveSessions` and `createAllSessions` -/

theorem getAllActiveSessions_fold_isSome (s : MCPState) (m : String) :
    ∀ (ks : List String) (acc : List (String × Session)),
      (jsGet (ks.foldl
        (fun acc n =>
          match jsGet s.sessions n with
          | some sess => jsSet acc n sess
          | none => acc) acc) m).isSome = true ↔
      ((m ∈ ks ∧ (jsGet s.sessions m).isSome = true) ∨ (jsGet acc m).isSome = true) := by
  intro ks
  induction ks with
  | nil =>
    intro acc
    simp
  | cons k ks ih =>
    intro acc
    rw [List.foldl_cons]
    cases hk : jsGet s.sessions k with
    | none =>
      dsimp only
      rw [ih]
      constructor
      · rintro (⟨h1, h2⟩ | h)
        · exact Or.inl ⟨List.mem_cons_of_mem k h1, h2⟩
        · exact Or.inr h
      · rintro (⟨h1, h2⟩ | h)
        · rcases List.mem_cons.mp h1 with h1 | h1
          · subst h1
            rw [hk] at h2
            simp at h2
          · exact Or.inl ⟨h1, h2⟩
        · exact Or.inr h
    | some sess =>
      dsimp only
      rw [ih]
      constructor
      · rintro (⟨h1, h2⟩ | h)
        · exact Or.inl ⟨List.mem_cons_of_mem k h1, h2⟩
        · rw [jsGet_jsSet] at h
          by_cases hmk : m = k
          · subst hmk
            exact Or.inl ⟨List.mem_cons_self m ks, by rw [hk]; rfl⟩
          · rw [if_neg hmk] at h
            exact Or.inr h
      · rintro (⟨h1, h2⟩ | h)
        · rcases List.mem_cons.mp h1 with h1 | h1
          · subst h1
            right
            rw [jsGet_jsSet, if_pos rfl]
            rfl
          · exact Or.inl ⟨h1, h2⟩
        · right
          rw [jsGet_jsSet]
          by_cases hmk : m = k
          · rw [if_pos hmk]
            rfl
          · rw [if_neg hmk]
            exact h

theorem getAllActiveSessions_isSome (s : MCPState) (m : String) :
    (jsGet (getAllActiveSessions s) m).isSome = true ↔
      m ∈ s.activeSessions ∧ (jsGet s.sessions m).isSome = true := by
  rw [getAllActiveSessions, getAllActiveSessions_fold_isSome]
  simp [jsGet_nil]

theorem createAllSessions_ok_spec (w : World) (s s' : MCPState)
    (h : createAllSessions w s = (s', Except.ok ())) :
    s'.config = s.config ∧
    ∃ servers, s.config.mcpServers = some servers ∧
      (∀ n ∈ servers.map Prod.fst,
        (jsGet s'.sessions n).isSome = true ∧ n ∈ s'.activeSessions) ∧
      (∀ m ∈ s'.activeSessions, m ∈ s.activeSessions ∨ m ∈ servers.map Prod.fst) ∧
      (∀ m, (jsGet s.sessions m).isSome = true → (jsGet s'.sessions m).isSome = true) ∧
      s'.toolServerMap = getToolServerMap w s'.sessions := by
  rw [createAllSessions] at h
  cases hs : s.config.mcpServers with
  | none =>
    rw [hs] at h
    exact absurd (congrArg Prod.snd h) (by simp)
  | some servers =>
    rw [hs] at h
    dsimp only at h
    by_cases he : servers.isEmpty = true
    · rw [if_pos he] at h
      exact absurd (congrArg Prod.snd h) (by simp)
    · rw [if_neg he] at h
      cases hloop : createSessionsLoop w s (servers.map Prod.fst) with
      | mk s1 r =>
        rw [hloop] at h
        cases r with
        | error e =>
          dsimp only at h
          exact absurd (congrArg Prod.snd h) (by simp)
        | ok u =>
          dsimp only at h
          have hs' : s' = { s1 with toolServerMap := getToolServerMap w s1.sessions } :=
            (congrArg Prod.fst h).symm
          obtain ⟨c1, c2, c3, c4, c5, c6, c7⟩ :=
            createSessionsLoop_ok w (servers.map Prod.fst) s s1 hloop
          subst hs'
          exact ⟨c1, servers, rfl, c5, c6, c3, rfl⟩

theorem createAllSessions_error_spec (w : World) (s s' : MCPState) (e : MCPError)
    (h : createAllSessions w s = (s', Except.error e)) :
    ((s.config.mcpServers = none ∨ s.config.mcpServers = some []) ∧
      s' = s ∧ e = MCPError.noServersDefined) ∨
    (∃ servers, s.config.mcpServers = some servers ∧ servers ≠ [] ∧
      ∃ pre k post, servers.map Prod.fst = pre ++ k :: post ∧
        createSessionsLoop w s pre = (s', Except.ok ()) ∧
        createSession w s' k = (s', Except.error e) ∧
        (∀ n ∈ pre, (jsGet s'.sessions n).isSome = true ∧ n ∈ s'.activeSessions) ∧
        (∀ m, (jsGet s'.sessions m).isSome = true →
          (jsGet s.sessions m).isSome = true ∨ m ∈ pre)) := by
  rw [createAllSessions] at h
  cases hs : s.config.mcpServers with
  | none =>
    rw [hs] at h
    refine Or.inl ⟨Or.inl rfl, ?_, ?_⟩
    · exact (congrArg Prod.fst h).symm
    · have := congrArg Prod.snd h
      simpa using this.symm
  | some servers =>
    rw [hs] at h
    dsimp only at h
    by_cases he : servers.isEmpty = true
    · rw [if_pos he] at h
      refine Or.inl ⟨Or.inr ?_, ?_, ?_⟩
      · rw [List.isEmpty_iff] at he
        rw [he]
      · exact (congrArg Prod.fst h).symm
      · have := congrArg Prod.snd h
        simpa using this.symm
    · rw [if_neg he] at h
      cases hloop : createSessionsLoop w s (servers.map Prod.fst) with
      | mk s1 r =>
        rw [hloop] at h
        cases r with
        | ok u =>
          dsimp only at h
          exact absurd (congrArg Prod.snd h) (by simp)
        | error e1 =>
          dsimp only at h
          have h1 : s1 = s' := congrArg Prod.fst h
          have h3 : e1 = e := by
            have := congrArg Prod.snd h
            simpa using this
          subst h1
          subst h3
          obtain ⟨pre, k, post, hks, hloop2, hfail, hpre, hframe⟩ :=
            createSessionsLoop_error w (servers.map Prod.fst) s s1 e1 hloop
          refine Or.inr ⟨servers, rfl, ?_, pre, k, post, hks, hloop2, hfail, hpre, hframe⟩
          intro hc
          subst hc
          exact he rfl

theorem foldl_closeSession_world_indep (w w' : World) :
    ∀ (ks : List String) (s : MCPState),
      ks.foldl (fun st n => closeSession w st n) s =
        ks.foldl (fun st n => closeSession w' st n) s := by
  intro ks
  induction ks with
  | nil => intro s; rfl
  | cons k ks ih =>
    intro s
    rw [List.foldl_cons, List.foldl_cons, closeSession_world_indep w w' s k]
    exact ih (closeSession w' s k)

theorem closeAllSessions_world_indep (w w' : World) (s : MCPState) :
    closeAllSessions w s = closeAllSessions w' s := by
  rw [closeAllSessions, closeAllSessions]
  exact foldl_closeSession_world_indep w w' _ s

/-! ## The claims -/

/-- C1, counterexample: in the reachable state `exStaleState` the rebuilt
Tool Index maps tool `ta` to server `a` even though `a` is not in
`activeSessions`, and the index differs from the one a scan of
`activeSessions` (the spec's wording) would produce: the rebuild scans the
`sessions` registry, not the active list. -/
theorem toolIndex_not_built_from_activeSessions :
    jsGet exStaleState.toolServerMap "ta" = some "a" ∧
    "a" ∉ exStaleState.activeSessions ∧
    exStaleState.toolServerMap ≠ getToolServerMapActiveScan exWorld exStaleState := by
  refine ⟨?_, ?_, ?_⟩ <;> decide

/-- C1, amended: the Tool Index rebuild records `toolName → serverName` by
querying, for every entry of the `sessions` registry (not only the names in
`activeSessions`), that session's tool catalog; a tool name reported by at
least one scanned session is mapped to exactly one server — the
latest-scanned reporter (`lastOwner`) — never both and never neither (the
index's keys are duplicate-free). -/
theorem toolIndex_last_scan_wins (w : World) (ss : List (String × Session)) (t : String) :
    jsGet (getToolServerMap w ss) t = lastOwner w ss t ∧
    ((getToolServerMap w ss).map Prod.fst).Nodup ∧
    ((∃ entry ∈ ss, t ∈ (w.toolCatalog entry.2).map Tool.name) ↔
      (jsGet (getToolServerMap w ss) t).isSome = true) := by
  refine ⟨getToolServerMap_jsGet w ss t, getToolServerMap_keys_nodup w ss, ?_, ?_⟩
  · rintro ⟨entry, he, hm⟩
    rw [getToolServerMap_jsGet]
    exact lastOwner_isSome w ss t entry he hm
  · intro h
    rw [getToolServerMap_jsGet] at h
    cases hlo : lastOwner w ss t with
    | none => rw [hlo] at h; simp at h
    | some srv =>
      obtain ⟨entry, he, _, hm⟩ := lastOwner_mem w ss t srv hlo
      exact ⟨entry, he, hm⟩

/-- C2: transport selection follows the stated precedence — stdio when
`command` and `args` are both present (regardless of `url`), else SSE when a
`url` is present with type `sse`, else streamable HTTP when a `url` is
present with type `streamable-http`, else WebSocket when `ws_url` is
present, else a configuration error. Presence of an optional string field is
JavaScript truthiness: it must be non-empty. -/
theorem createTransport_precedence (cfg : MCPServerConfig) :
    (∀ c as, cfg.command = some c → c ≠ "" → cfg.args = some as →
      createTransport cfg = Except.ok (Transport.stdio c as cfg.env)) ∧
    ((truthyStr cfg.command && truthyList cfg.args) = false →
      ∀ u, cfg.url = some u → u ≠ "" → cfg.type = some "sse" →
        createTransport cfg = Except.ok (Transport.sse u)) ∧
    ((truthyStr cfg.command && truthyList cfg.args) = false →
      ∀ u, cfg.url = some u → u ≠ "" → cfg.type = some "streamable-http" →
        createTransport cfg = Except.ok (Transport.streamableHttp u)) ∧
    ((truthyStr cfg.command && truthyList cfg.args) = false →
      (truthyStr cfg.url && (cfg.type == some "sse")) = false →
      (truthyStr cfg.url && (cfg.type == some "streamable-http")) = false →
      ∀ u, cfg.ws_url = some u → u ≠ "" →
        createTransport cfg = Except.ok (Transport.websocket u)) ∧
    ((truthyStr cfg.command && truthyList cfg.args) = false →
      (truthyStr cfg.url && (cfg.type == some "sse")) = false →
      (truthyStr cfg.url && (cfg.type == some "streamable-http")) = false →
      truthyStr cfg.ws_url = false →
      createTransport cfg = Except.error MCPError.configurationError) := by
  refine ⟨?_, ?_, ?_, ?_, ?_⟩
  · intro c as hc hne ha
    rw [createTransport]
    have ht : (truthyStr cfg.command && truthyList cfg.args) = true := by
      rw [hc, ha]
      simp [truthyStr, truthyList, hne]
    rw [if_pos ht, hc, ha]
    rfl
  · intro h1 u hu hne htype
    rw [createTransport, if_neg (by rw [h1]; exact Bool.false_ne_true)]
    have ht : (truthyStr cfg.url && (cfg.type == some "sse")) = true := by
      rw [hu, htype]
      simp [truthyStr, hne]
    rw [if_pos ht, hu]
    rfl
  · intro h1 u hu hne htype
    rw [createTransport, if_neg (by rw [h1]; exact Bool.false_ne_true)]
    have hsse : (truthyStr cfg.url && (cfg.type == some "sse")) = false := by
      rw [htype]
      simp
    rw [if_neg (by rw [hsse]; exact Bool.false_ne_true)]
    have ht : (truthyStr cfg.url && (cfg.type == some "streamable-http")) = true := by
      rw [hu, htype]
      simp [truthyStr, hne]
    rw [if_pos ht, hu]
    rfl
  · intro h1 h2 h3 u hu hne
    rw [createTransport, if_neg (by rw [h1]; exact Bool.false_ne_true),
      if_neg (by rw [h2]; exact Bool.false_ne_true),
      if_neg (by rw [h3]; exact Bool.false_ne_true)]
    have ht : truthyStr cfg.ws_url = true := by
      rw [hu]
      simp [truthyStr, hne]
    rw [if_pos ht, hu]
    rfl
  · intro h1 h2 h3 h4
    rw [createTransport, if_neg (by rw [h1]; exact Bool.false_ne_true),
      if_neg (by rw [h2]; exact Bool.false_ne_true),
      if_neg (by rw [h3]; exact Bool.false_ne_true),
      if_neg (by rw [h4]; exact Bool.false_ne_true)]

/-- C2 witness: concrete descriptors exercise each precedence branch; in
particular a descriptor carrying both `command`/`args` and a `url` yields
the stdio transport. -/
theorem createTransport_precedence_witness :
    createTransport cfgBothStdioUrl = Except.ok (Transport.stdio "echo" ["hi"] none) ∧
    createTransport cfgSse = Except.ok (Transport.sse "http://localhost:8000/sse") ∧
    createTransport cfgHttp = Except.ok (Transport.streamableHttp "http://localhost:8000/mcp") ∧
    createTransport cfgWs = Except.ok (Transport.websocket "ws://localhost:9000") ∧
    createTransport cfgNoTransport = Except.error MCPError.configurationError :=
  ⟨(createTransport_precedence cfgBothStdioUrl).1 "echo" ["hi"] rfl (by decide) rfl,
   (createTransport_precedence cfgSse).2.1 (by decide) "http://localhost:8000/sse" rfl
     (by decide) rfl,
   (createTransport_precedence cfgHttp).2.2.1 (by decide) "http://localhost:8000/mcp" rfl
     (by decide) rfl,
   (createTransport_precedence cfgWs).2.2.2.1 (by decide) (by decide) (by decide)
     "ws://localhost:9000" rfl (by decide),
   (createTransport_precedence cfgNoTransport).2.2.2.2 (by decide) (by decide) (by decide)
     (by decide)⟩

/-- C3, counterexample: in the reachable state `exEmptyNameState` the tool
`tb` is present in the Tool Index and its indexed server's session is live
in the registry, yet `callTool` is not forwarded to it: the source's falsy
guard `if (!serverName)` also fires on the empty-string server name and
fails with the no-server-for-tool error, refuting "for a name present in
the index, the call is forwarded to the indexed server's session". -/
theorem callTool_emptyName_not_forwarded :
    jsGet exEmptyNameState.toolServerMap "tb" = some "" ∧
    (jsGet exEmptyNameState.sessions "").isSome = true ∧
    callTool exEmptyNameState "tb" [] =
      Except.error (MCPError.noServerForTool "tb") := by
  refine ⟨by decide, by decide, rfl⟩

/-- C3, amended: `callTool` for a tool name absent from the Tool Index — or
indexed to the falsy empty-string server name — fails with the
no-server-for-tool error, producing no dispatch and, being a pure lookup,
contacting no server and changing no state; for a name indexed to a
non-empty server name it forwards a dispatch to that server's session with
timeout `maxToolTimeout`, and fails with the no-session error if that
server is gone from the registry. -/
theorem callTool_routing (s : MCPState) (name : String) (args : List (String × String)) :
    (jsGet s.toolServerMap name = none →
      callTool s name args = Except.error (MCPError.noServerForTool name)) ∧
    (jsGet s.toolServerMap name = some "" →
      callTool s name args = Except.error (MCPError.noServerForTool name)) ∧
    (∀ srv, jsGet s.toolServerMap name = some srv → srv ≠ "" →
      (jsGet s.sessions srv = none →
        callTool s name args = Except.error (MCPError.noSessionForServer srv)) ∧
      ((jsGet s.sessions srv).isSome = true →
        callTool s name args =
          Except.ok { serverName := srv, toolName := name, args := args,
                      timeout := s.maxToolTimeout })) := by
  refine ⟨?_, ?_, ?_⟩
  · intro h
    rw [callTool, h]
  · intro h
    rw [callTool, h]
    dsimp only
    rw [if_pos rfl]
  · intro srv hsrv hne
    refine ⟨?_, ?_⟩
    · intro h
      rw [callTool, hsrv]
      dsimp only
      rw [if_neg hne, h]
    · intro h
      cases hg : jsGet s.sessions srv with
      | none =>
        rw [hg] at h
        simp at h
      | some c =>
        rw [callTool, hsrv]
        dsimp only
        rw [if_neg hne, hg]

/-- C3 witness: an unknown tool fails without a dispatch; a tool indexed to
the empty server name fails the same way despite its live session; a tool
indexed to a non-empty server name is dispatched to that server with the
default 10000 ms timeout. -/
theorem callTool_routing_witness :
    callTool exActiveState "missing" [] =
      Except.error (MCPError.noServerForTool "missing") ∧
    callTool exEmptyNameState "tb" [] =
      Except.error (MCPError.noServerForTool "tb") ∧
    callTool exStaleState "tb" [] =
      Except.ok { serverName := "b", toolName := "tb", args := [], timeout := 10000 } :=
  ⟨(callTool_routing exActiveState "missing" []).1 (by decide),
   (callTool_routing exEmptyNameState "tb" []).2.1 (by decide),
   (((callTool_routing exStaleState "tb" []).2.2 "b" (by decide)) (by decide)).2 (by decide)⟩

/-- C4: when `createAllSessions` fails, either the configuration was empty
or absent — then the error is the no-servers error and the state is
untouched — or some per-server creation failed midway: the configured names
split as `pre ++ k :: post` where every server in `pre` was created and is
tracked (in `sessions` and `activeSessions` of the final state), creation
failed at `k` leaving the state as the loop left it, the servers after `k`
were never attempted (the final registry holds only prior sessions and
`pre`), and the error propagates. -/
theorem createAllSessions_failure_semantics (w : World) (s s' : MCPState) (e : MCPError)
    (h : createAllSessions w s = (s', Except.error e)) :
    ((s.config.mcpServers = none ∨ s.config.mcpServers = some []) →
      s' = s ∧ e = MCPError.noServersDefined) ∧
    (∀ servers, s.config.mcpServers = some servers → servers ≠ [] →
      ∃ pre k post, servers.map Prod.fst = pre ++ k :: post ∧
        createSessionsLoop w s pre = (s', Except.ok ()) ∧
        createSession w s' k = (s', Except.error e) ∧
        (∀ n ∈ pre, (jsGet s'.sessions n).isSome = true ∧ n ∈ s'.activeSessions) ∧
        (∀ m, (jsGet s'.sessions m).isSome = true →
          (jsGet s.sessions m).isSome = true ∨ m ∈ pre)) := by
  rcases createAllSessions_error_spec w s s' e h with ⟨hc, h1, h2⟩ | ⟨servers, hs, hne, rest⟩
  · constructor
    · intro _
      exact ⟨h1, h2⟩
    · intro servers hserv hne
      rcases hc with hc | hc
      · rw [hserv] at hc
        exact absurd hc (by simp)
      · rw [hserv] at hc
        injection hc with hc
        exact absurd hc hne
  · constructor
    · intro hc
      rcases hc with hc | hc
      · rw [hs] at hc
        exact absurd hc (by simp)
      · rw [hs] at hc
        injection hc with hc
        exact absurd hc hne
    · intro servers' hs' hne'
      rw [hs] at hs'
      injection hs' with hs'
      subst hs'
      exact rest

/-- C4 witness: bulk creation over `badSecondConfig` fails at the second
server; server `a` (the prefix) was created and stays tracked, and nothing
else entered the registry. -/
theorem createAllSessions_failure_semantics_witness :
    ∃ pre k post,
      (["a", "bad"] : List String) = pre ++ k :: post ∧
      createSessionsLoop exWorld (mkClient badSecondConfig none) pre =
        (exFailState, Except.ok ()) ∧
      createSession exWorld exFailState k =
        (exFailState, Except.error MCPError.configurationError) ∧
      (∀ n ∈ pre, (jsGet exFailState.sessions n).isSome = true ∧
        n ∈ exFailState.activeSessions) ∧
      (∀ m, (jsGet exFailState.sessions m).isSome = true →
        (jsGet (mkClient badSecondConfig none).sessions m).isSome = true ∨ m ∈ pre) :=
  (createAllSessions_failure_semantics exWorld (mkClient badSecondConfig none) exFailState
      MCPError.configurationError rfl).2
    [("a", cfgStdioA), ("bad", cfgNoTransport)] rfl (by decide)

/-- C5: whenever `createAllSessions` succeeds from a consistent state, the
keys of `getAllActiveSessions` are exactly the configured server names (each
key carries an actual session value, so each configured name maps to a
non-null session). -/
theorem createAllSessions_active_matches_config (w : World) (s s' : MCPState)
    (hinv : RegistryInv s) (h : createAllSessions w s = (s', Except.ok ())) (n : String) :
    (jsGet (getAllActiveSessions s') n).isSome = true ↔ n ∈ getServerNames s' := by
  obtain ⟨hcfg, servers, hs, hall, hsub, hmono, _⟩ := createAllSessions_ok_spec w s s' h
  obtain ⟨⟨hnd, hsess⟩, hconf⟩ := hinv
  rw [getAllActiveSessions_isSome]
  have hnames : getServerNames s' = servers.map Prod.fst := by
    rw [getServerNames, hcfg, hs]
    rfl
  rw [hnames]
  constructor
  · rintro ⟨hact, hsome⟩
    rcases hsub n hact with hn | hn
    · have hcn := hconf n hn
      rw [getServerNames, hs] at hcn
      exact hcn
    · exact hn
  · intro hn
    exact ⟨(hall n hn).2, (hall n hn).1⟩

/-- C5 witness: after a successful bulk creation over `twoServerConfig`,
the active-session map holds exactly the configured names. -/
theorem createAllSessions_active_matches_config_witness :
    ((jsGet (getAllActiveSessions exAllState) "a").isSome = true ↔
      "a" ∈ getServerNames exAllState) ∧
    ((jsGet (getAllActiveSessions exAllState) "zzz").isSome = true ↔
      "zzz" ∈ getServerNames exAllState) :=
  ⟨createAllSessions_active_matches_config exWorld (mkClient twoServerConfig none) exAllState
      (registryInv_mkClient twoServerConfig none) rfl "a",
   createAllSessions_active_matches_config exWorld (mkClient twoServerConfig none) exAllState
      (registryInv_mkClient twoServerConfig none) rfl "zzz"⟩

/-- C6: in every state reachable by any sequence of orchestrator operations,
every name in `activeSessions` has a corresponding entry in the `sessions`
map. -/
theorem reachable_active_have_sessions (s : MCPState) (n : String)
    (h : Reachable s) (hn : n ∈ s.activeSessions) :
    (jsGet s.sessions n).isSome = true :=
  (registryInv_reachable s h).1.2 n hn

/-- C6 witness: the invariant evaluated in the concrete reachable state with
one live session. -/
theorem reachable_active_have_sessions_witness :
    (jsGet exActiveState.sessions "a").isSome = true :=
  reachable_active_have_sessions exActiveState "a"
    ⟨oneServerConfig, none, [(exWorld, Op.createSession "a")], rfl⟩ (by decide)

/-- C7: `closeSession` on an untracked name is a no-op returning the state
unchanged (and, by its type, raising nothing); on a tracked name it removes
the name from both `sessions` and `activeSessions`, leaves every other entry
alone, and produces the same state whatever the oracle says about the close
call (close-time errors are swallowed). -/
theorem closeSession_contract (w w' : World) (s : MCPState) (n : String)
    (hnd : s.activeSessions.Nodup) :
    (jsGet s.sessions n = none → closeSession w s n = s) ∧
    ((jsGet s.sessions n).isSome = true →
      jsGet (closeSession w s n).sessions n = none ∧
      n ∉ (closeSession w s n).activeSessions ∧
      (∀ m, m ≠ n → jsGet (closeSession w s n).sessions m = jsGet s.sessions m) ∧
      (∀ m ∈ s.activeSessions, m ≠ n → m ∈ (closeSession w s n).activeSessions)) ∧
    closeSession w s n = closeSession w' s n := by
  refine ⟨?_, ?_, closeSession_world_indep w w' s n⟩
  · intro h
    rcases closeSession_cases w s n with ⟨hg, he⟩ | ⟨hg, he⟩
    · exact he
    · rw [h] at hg
      simp at hg
  · intro h
    rcases closeSession_cases w s n with ⟨hg, he⟩ | ⟨hg, he⟩
    · rw [hg] at h
      simp at h
    · rw [he]
      refine ⟨?_, ?_, ?_, ?_⟩
      · show jsGet (jsDelete s.sessions n) n = none
        rw [jsGet_jsDelete, if_pos rfl]
      · show n ∉ removeFirst s.activeSessions n
        exact not_mem_removeFirst_self _ _ hnd
      · intro m hm
        show jsGet (jsDelete s.sessions n) m = jsGet s.sessions m
        rw [jsGet_jsDelete, if_neg hm]
      · intro m hm hmn
        show m ∈ removeFirst s.activeSessions n
        exact mem_removeFirst_of_ne _ _ _ hm hmn

/-- C7 witness: closing an unknown name leaves the concrete state intact;
closing the live session `a` evicts it from the registry. -/
theorem closeSession_contract_witness :
    closeSession exWorld exActiveState "zzz" = exActiveState ∧
    jsGet (closeSession exWorld exActiveState "a").sessions "a" = none :=
  ⟨(closeSession_contract exWorld exWorld exActiveState "zzz" (by decide)).1 (by decide),
   (((closeSession_contract exWorld exWorld exActiveState "a" (by decide)).2.1) (by decide)).1⟩

/-- C8: `closeAllSessions` empties both `sessions` and `activeSessions`
from any consistent state, and its result does not depend on whether
individual closes succeed or fail (and, by its type, it raises nothing). -/
theorem closeAllSessions_clears_registry (w w' : World) (s : MCPState)
    (hnd : s.activeSessions.Nodup)
    (hact : ∀ n ∈ s.activeSessions, (jsGet s.sessions n).isSome = true) :
    (closeAllSessions w s).sessions = [] ∧
    (closeAllSessions w s).activeSessions = [] ∧
    closeAllSessions w s = closeAllSessions w' s :=
  ⟨closeAllSessions_sessions w s,
   closeAllSessions_activeSessions w s ⟨hnd, hact⟩,
   closeAllSessions_world_indep w w' s⟩

/-- C8 witness: tearing down the concrete one-session state clears both
registries. -/
theorem closeAllSessions_clears_registry_witness :
    (closeAllSessions exWorld exActiveState).sessions = [] ∧
    (closeAllSessions exWorld exActiveState).activeSessions = [] ∧
    closeAllSessions exWorld exActiveState = closeAllSessions exWorld exActiveState :=
  closeAllSessions_clears_registry exWorld exWorld exActiveState (by decide) (by decide)

/-- C9: `removeServer` deletes the descriptor (the name leaves
`getServerNames`, the other names stay) and evicts the name from
`activeSessions`, but leaves the `sessions` map unchanged: a live session
for the name survives in the registry and is still independently closable
afterward. -/
theorem removeServer_contract (w : World) (s : MCPState) (n : String)
    (hnd : s.activeSessions.Nodup) :
    (removeServer s n).sessions = s.sessions ∧
    n ∉ (removeServer s n).activeSessions ∧
    (∀ m ∈ s.activeSessions, m ≠ n → m ∈ (removeServer s n).activeSessions) ∧
    n ∉ getServerNames (removeServer s n) ∧
    (∀ m ∈ getServerNames s, m ≠ n → m ∈ getServerNames (removeServer s n)) ∧
    (∀ c, jsGet s.sessions n = some c →
      jsGet (removeServer s n).sessions n = some c ∧
      jsGet (closeSession w (removeServer s n) n).sessions n = none) := by
  refine ⟨removeServer_sessions s n, ?_, ?_, ?_, ?_, ?_⟩
  · rw [removeServer_activeSessions]
    exact not_mem_removeFirst_self _ _ hnd
  · intro m hm hmn
    rw [removeServer_activeSessions]
    exact mem_removeFirst_of_ne _ _ _ hm hmn
  · intro hc
    exact ((getServerNames_removeServer s n n).mp hc).2 rfl
  · intro m hm hmn
    exact (getServerNames_removeServer s n m).mpr ⟨hm, hmn⟩
  · intro c hc
    constructor
    · rw [removeServer_sessions]
      exact hc
    · rw [closeSession_sessions, removeServer_sessions, jsGet_jsDelete, if_pos rfl]

/-- C9 witness: removing server `a` from the concrete one-session state
leaves its session in the registry, drops it from the configured names, and
the session can still be closed afterward. -/
theorem removeServer_contract_witness :
    (removeServer exActiveState "a").sessions = exActiveState.sessions ∧
    "a" ∉ (removeServer exActiveState "a").activeSessions ∧
    "a" ∉ getServerNames (removeServer exActiveState "a") ∧
    jsGet (removeServer exActiveState "a").sessions "a" = some exSessionA ∧
    jsGet (closeSession exWorld (removeServer exActiveState "a") "a").sessions "a" = none := by
  have h := removeServer_contract exWorld exActiveState "a" (by decide)
  have h6 := h.2.2.2.2.2 exSessionA (by decide)
  exact ⟨h.1, h.2.1, h.2.2.2.1, h6.1, h6.2⟩

/-- C10: the constructor only overrides the 10000 ms default when the
supplied `maxToolTimeout` is truthy, so passing 0 (the only falsy number in
the model) leaves the default, omitting the argument leaves the default, a
non-zero value is taken as is, and no construction yields a zero timeout. -/
theorem maxToolTimeout_falsy_default (cfg : MCPConfig) :
    (mkClient cfg (some 0)).maxToolTimeout = 10000 ∧
    (mkClient cfg none).maxToolTimeout = 10000 ∧
    (∀ t, (mkClient cfg t).maxToolTimeout ≠ 0) ∧
    (∀ k, k ≠ 0 → (mkClient cfg (some k)).maxToolTimeout = k) := by
  refine ⟨rfl, rfl, ?_, ?_⟩
  · intro t
    cases t with
    | none => simp [mkClient]
    | some k =>
      by_cases hk : k = 0
      · subst hk
        simp [mkClient]
      · simp [mkClient, hk]
  · intro k hk
    simp [mkClient, hk]

/-- C10 witness: a zero timeout argument is ignored in favour of the
default, and a non-zero one is honoured. -/
theorem maxToolTimeout_falsy_default_witness :
    (mkClient oneServerConfig (some 0)).maxToolTimeout = 10000 ∧
    (mkClient oneServerConfig (some 0)).maxToolTimeout ≠ 0 ∧
    (mkClient oneServerConfig (some 5)).maxToolTimeout = 5 :=
  ⟨(maxToolTimeout_falsy_default oneServerConfig).1,
   (maxToolTimeout_falsy_default oneServerConfig).2.2.1 (some 0),
   (maxToolTimeout_falsy_default oneServerConfig).2.2.2 5 (by decide)⟩

end MCP
